import Mathlib

/-!
Verification of the coltec-daemon planning and execution engine.

This file gives a shallow embedding, in Lean 4, of the pure core of the
`coltec-daemon` crate (files `src/coltec-daemon/src/plan.rs`,
`src/coltec-daemon/src/config.rs`, `src/coltec-daemon/src/sync.rs`) and proves
properties of that embedding.

Modelling conventions:
* Rust `String`/`&str` values become Lean `String`; character-level algorithms
  work on `List Char` (the `.data` of a `String`).
* Rust `str::replace` is embedded as `replaceAll`, scanning left to right and
  replacing non-overlapping matches; a fuel argument (instantiated with the
  length of the string, which is always sufficient because every step consumes
  at least one character) keeps the recursion structural.
* `BTreeMap<String, V>` becomes an association list `List (String × V)` whose
  order is the map's ascending key order.
* Machine integers (`u8`, `u32`, `u64`) become `Nat`; none of the verified
  claims involve overflow.
* Effects are made explicit: environment-variable lookup becomes a function
  `String → Option String`; filesystem existence checks, bisync markers and
  subprocess outcomes become fields of an `ExecEnv` record; the wall clock
  becomes a `now : Nat` argument; sleeping is recorded as the list of delays
  (in milliseconds) that `execute_sync` would have slept.
* `PlanContext::resolve_remote` recurses with no guard; the embedding
  `resolve_remote` threads an explicit recursion-depth fuel and returns the
  distinguished outcome `ResolveOutcome.diverge` when the fuel runs out, so
  `(∀ fuel, … = .diverge)` states that the Rust recursion never returns.
-/

/-! ### Character and string utilities -/

/-- The single-quote character `'`. -/
def squote : Char := Char.ofNat 39

/-- The double-quote character `"`. -/
def dquote : Char := Char.ofNat 34

/-- A one-character string holding a single quote. -/
def sqt : String := String.mk [squote]

/-- `stripLead p s` returns `some rest` when `s = p ++ rest`, else `none`. -/
def stripLead : List Char → List Char → Option (List Char)
  | [], s => some s
  | _ :: _, [] => none
  | a :: ps, b :: ss => if a == b then stripLead ps ss else none

/-- Fueled worker for `replaceAll`.  Scans left to right; on a match of `p` it
emits `r` and continues after the matched segment (the replacement text is not
rescanned), mirroring Rust `str::replace`.  One unit of fuel is spent per
step, and every step consumes at least one character of the input, so fuel
equal to the input length is always sufficient. -/
def replaceAllF (p r : List Char) : Nat → List Char → List Char
  | 0, s => s
  | fuel + 1, s =>
    match p, s with
    | [], _ => s
    | _ :: _, [] => []
    | _ :: _, c :: t =>
      match stripLead p (c :: t) with
      | some rest => r ++ replaceAllF p r fuel rest
      | none => c :: replaceAllF p r fuel t

/-- Replace every non-overlapping occurrence of `p` in `s` by `r`, leftmost
first — the semantics of Rust `str::replace(p, r)` for nonempty patterns
(all patterns used by the daemon are nonempty string literals). -/
def replaceAll (p r s : List Char) : List Char := replaceAllF p r s.length s

/-- String-level wrapper around `replaceAll`: `rust_replace s p r` is the Rust
expression `s.replace(p, r)`. -/
def rust_replace (s pat r : String) : String :=
  String.mk (replaceAll pat.data r.data s.data)

/-- The placeholder pattern `{org}` as a character list. -/
def orgPat : List Char := ['{', 'o', 'r', 'g', '}']

/-- The placeholder pattern `{project}` as a character list. -/
def projPat : List Char := ['{', 'p', 'r', 'o', 'j', 'e', 'c', 't', '}']

/-- The placeholder pattern `{env}` as a character list. -/
def envPat : List Char := ['{', 'e', 'n', 'v', '}']

/-- `occursPat p s` is `true` when `p` occurs as a contiguous substring of
`s` (for nonempty `p`). -/
def occursPat (p : List Char) : List Char → Bool
  | [] => false
  | c :: t => (stripLead p (c :: t)).isSome || occursPat p t

/-- Split a character list at the first `}`: `findClose s = some (var, tail)`
when `s = var ++ '}' :: tail` with `var` brace-free on `}`. -/
def findClose : List Char → Option (List Char × List Char)
  | [] => none
  | c :: t =>
    if c == Char.ofNat 125 then some ([], t)
    else match findClose t with
      | none => none
      | some (v, tl) => some (c :: v, tl)

/-- Characters allowed in a bare `$VAR` name (`sync.rs` uses
`is_alphanumeric() || c == '_'`; the embedding uses the ASCII check, which
agrees on all inputs appearing in the verified claims). -/
def isVarChar (c : Char) : Bool := c.isAlphanum || c == '_'

/-- Longest leading run of variable characters and the remainder. -/
def spanVar : List Char → List Char × List Char
  | [] => ([], [])
  | c :: t =>
    if isVarChar c then
      let p := spanVar t
      (c :: p.1, p.2)
    else ([], c :: t)

/-- Fueled `${VAR}` expansion pass of `expand_env_vars` (`sync.rs` lines
163-182): find `${`, find the next `}`, look the name up in `env`; on success
splice the value and continue after it, on failure keep the text verbatim and
continue after the `}`.  Fuel equal to the input length is sufficient. -/
def expandBracedF (env : String → Option String) : Nat → List Char → List Char
  | 0, s => s
  | _ + 1, [] => []
  | fuel + 1, c :: t =>
    match stripLead ['$', '{'] (c :: t) with
    | some t' =>
      match findClose t' with
      | none => c :: t
      | some (var, tail) =>
        match env (String.mk var) with
        | some repl => repl.data ++ expandBracedF env fuel tail
        | none => '$' :: '{' :: (var ++ Char.ofNat 125 :: expandBracedF env fuel tail)
    | none => c :: expandBracedF env fuel t

/-- Fueled `$VAR` expansion pass of `expand_env_vars` (`sync.rs` lines
184-208): a `$` not followed by `{` starts a maximal alphanumeric/underscore
run; set variables are spliced (the replacement is not rescanned), unset ones
are kept verbatim. -/
def expandPlainF (env : String → Option String) : Nat → List Char → List Char
  | 0, s => s
  | _ + 1, [] => []
  | fuel + 1, c :: t =>
    match stripLead ['$'] (c :: t) with
    | none => c :: expandPlainF env fuel t
    | some t1 =>
      match stripLead ['{'] t1 with
      | some _ => '$' :: expandPlainF env fuel t1
      | none =>
        match spanVar t1 with
        | ([], _) => '$' :: expandPlainF env fuel t1
        | (run, rest) =>
          match env (String.mk run) with
          | some repl => repl.data ++ expandPlainF env fuel rest
          | none => '$' :: (run ++ expandPlainF env fuel rest)

/-- `expand_env_vars` (`sync.rs` lines 156-211): the `${VAR}` pass followed by
the `$VAR` pass, with the ambient process environment abstracted as
`env : String → Option String`. -/
def expand_env_vars (env : String → Option String) (s : String) : String :=
  let braced := expandBracedF env s.data.length s.data
  String.mk (expandPlainF env braced.length braced)

/-- Rust `prefix.trim_end_matches('/')`: remove every trailing slash. -/
def trim_end_matches_slash (s : String) : String :=
  String.mk (List.reverse (List.dropWhile (fun c => c == '/') (List.reverse s.data)))

/-- Modelled from the claim's words, for comparison with the source behaviour:
remove exactly one trailing slash if present ("the prefix with one trailing
slash trimmed"). -/
def trim_one_trailing_slash_spec (s : String) : String :=
  match s.data.reverse with
  | '/' :: rest => String.mk rest.reverse
  | _ => s

/-! ### Configuration data model (`lib.rs`) -/

/-- `FilenameEncryption` (`lib.rs` lines 71-80). -/
inductive FilenameEncryption where
  | standard
  | obfuscate
  | off
deriving DecidableEq

/-- The lowercase rendering `format!("{:?}", fe).to_lowercase()` used by
`resolve_remote_config` (`plan.rs` line 175). -/
def feName : FilenameEncryption → String
  | .standard => "standard"
  | .obfuscate => "obfuscate"
  | .off => "off"

/-- `CryptConfig` (`lib.rs` lines 89-103). -/
structure CryptConfig where
  password_env : String
  password2_env : Option String
  filename_encryption : FilenameEncryption
  directory_name_encryption : Bool
deriving DecidableEq

/-- `RemoteConfig` (`lib.rs` lines 112-144).  `rtype` is the source field
`r#type`; `prePath` is the source field `path_prefix`; `options` is the
`BTreeMap` in ascending key order. -/
structure RemoteConfig where
  rtype : String
  bucket : Option String
  prePath : Option String
  options : List (String × String)
  wrap_remote : Option String
  wrap_path : Option String
  crypt : Option CryptConfig
deriving DecidableEq

/-- `ResolvedRemote` (`plan.rs` lines 21-45); recursive because a crypt remote
embeds its resolved wrap target by value (`prePath` is the source field
`path_prefix`). -/
inductive ResolvedRemote where
  | mk
    (name : String)
    (remote_type : String)
    (bucket : Option String)
    (prePath : Option String)
    (options : List (String × String))
    (wrap_remote : Option ResolvedRemote)
    (wrap_path : Option String)
    (password_env : Option String)
    (password2_env : Option String)
    (filename_encryption : Option String)
    (directory_name_encryption : Option Bool)
    : ResolvedRemote

/-- Field projection `name` of `ResolvedRemote`. -/
def ResolvedRemote.name : ResolvedRemote → String
  | .mk n _ _ _ _ _ _ _ _ _ _ => n

/-- Field projection `remote_type` of `ResolvedRemote`. -/
def ResolvedRemote.remote_type : ResolvedRemote → String
  | .mk _ t _ _ _ _ _ _ _ _ _ => t

/-- Field projection `bucket` of `ResolvedRemote`. -/
def ResolvedRemote.bucket : ResolvedRemote → Option String
  | .mk _ _ b _ _ _ _ _ _ _ _ => b

/-- Field projection for the source field `path_prefix` of `ResolvedRemote`. -/
def ResolvedRemote.prePath : ResolvedRemote → Option String
  | .mk _ _ _ p _ _ _ _ _ _ _ => p

/-- Field projection `options` of `ResolvedRemote`. -/
def ResolvedRemote.options : ResolvedRemote → List (String × String)
  | .mk _ _ _ _ o _ _ _ _ _ _ => o

/-- Field projection `wrap_remote` of `ResolvedRemote`. -/
def ResolvedRemote.wrap_remote : ResolvedRemote → Option ResolvedRemote
  | .mk _ _ _ _ _ w _ _ _ _ _ => w

/-- Field projection `wrap_path` of `ResolvedRemote`. -/
def ResolvedRemote.wrap_path : ResolvedRemote → Option String
  | .mk _ _ _ _ _ _ wp _ _ _ _ => wp

/-- `SyncDirection` (`lib.rs` lines 163-172). -/
inductive SyncDirection where
  | bidirectional
  | pullOnly
  | pushOnly
deriving DecidableEq, BEq

/-- `SyncDefaults` (`lib.rs` lines 147-161). -/
structure SyncDefaults where
  transfers : Option Nat
  checkers : Option Nat
  bwlimit : Option String
deriving DecidableEq

/-- `OperationSettings` (`plan.rs` lines 10-18). -/
structure OperationSettings where
  transfers : Option Nat
  checkers : Option Nat
  bwlimit : Option String
deriving DecidableEq

/-- `SyncPath` (`lib.rs` lines 180-211). -/
structure SyncPath where
  name : String
  path : String
  remote_path : String
  remote : Option String
  direction : SyncDirection
  interval : Nat
  priority : Nat
  exclude : List String
  transfers : Option Nat
  checkers : Option Nat
  bwlimit : Option String
deriving DecidableEq

/-- `RcloneVolumeConfig` (`lib.rs` lines 247-263). -/
structure RcloneVolumeConfig where
  name : String
  remote_path : String
  mount_path : String
  sync : SyncDirection
  interval : Nat
  priority : Nat
  exclude : List String
  read_only : Bool
deriving DecidableEq

/-- `MultiScopeVolumes` (`lib.rs` lines 265-274), restricted to the
`environment` list, which is the only part the planner reads. -/
structure MultiScopeVolumes where
  environment : List RcloneVolumeConfig
deriving DecidableEq

/-- `PersistenceSpec` (`lib.rs` lines 276-305), restricted to the fields read
by planning and validation. -/
structure PersistenceSpec where
  remotes : List (String × RemoteConfig)
  default_remote : Option String
  defaults : Option SyncDefaults
  sync : List SyncPath
  multi_scope_volumes : Option MultiScopeVolumes
deriving DecidableEq

/-- `WorkspaceMetadata` (`lib.rs` lines 492-503), restricted to the fields
read by planning. -/
structure WorkspaceMetadata where
  org : String
  project : String
  environment : String
deriving DecidableEq

/-- `WorkspaceSpec` (`lib.rs` lines 509-527), restricted to the fields read by
planning. -/
structure WorkspaceSpec where
  name : String
  metadata : WorkspaceMetadata
  persistence : PersistenceSpec
deriving DecidableEq

/-! ### Planning (`plan.rs`) -/

/-- `SyncAction` (`plan.rs` lines 50-70). -/
structure SyncAction where
  name : String
  local_path : String
  remote_path : String
  direction : SyncDirection
  interval_secs : Nat
  priority : Nat
  excludes : List String
  remote : Option ResolvedRemote
  operation : OperationSettings

/-- `SyncPlan` (`plan.rs` lines 73-79). -/
structure SyncPlan where
  workspace_name : String
  actions : List SyncAction

/-- `PlanContext` (`plan.rs` lines 115-129), with the borrowed maps owned. -/
structure PlanContext where
  org : String
  project : String
  env : String
  remotes : List (String × RemoteConfig)
  default_remote : Option String
  defaults : Option SyncDefaults

/-- `PlanContext::from_spec` (`plan.rs` lines 133-142). -/
def PlanContext.from_spec (spec : WorkspaceSpec) : PlanContext :=
  { org := spec.metadata.org
    project := spec.metadata.project
    env := spec.metadata.environment
    remotes := spec.persistence.remotes
    default_remote := spec.persistence.default_remote
    defaults := spec.persistence.defaults }

/-- `PlanContext::resolve` (`plan.rs` lines 145-150): the chained
`template.replace("{org}", org).replace("{project}", project).replace("{env}", env)`. -/
def PlanContext.resolve (ctx : PlanContext) (template : String) : String :=
  rust_replace (rust_replace (rust_replace template "{org}" ctx.org) "{project}" ctx.project)
    "{env}" ctx.env

/-- `BTreeMap::get` on the association-list model. -/
def lookupRemote (remotes : List (String × RemoteConfig)) (name : String) :
    Option RemoteConfig :=
  (remotes.find? (fun kv => kv.1 == name)).map (fun kv => kv.2)

/-- Outcome of running the unguarded recursion of
`PlanContext::resolve_remote`: either the value the Rust code returns, or
`diverge` when the recursion exceeds the available depth fuel. -/
inductive ResolveOutcome where
  | ok (value : Option ResolvedRemote)
  | diverge

/-- `PlanContext::resolve_remote` / `resolve_remote_config` (`plan.rs` lines
153-195).  The Rust code recurses on `wrap_remote` of `"crypt"` remotes with
no visited set and no depth bound; `fuel` counts the recursive calls the
embedding is still allowed to make, and `.diverge` reports that the source
recursion would not have returned within that depth. -/
def resolve_remote (remotes : List (String × RemoteConfig)) : Nat → String → ResolveOutcome
  | fuel, name =>
    match lookupRemote remotes name with
    | none => .ok none
    | some config =>
      let wrapOut : ResolveOutcome :=
        if config.rtype == "crypt" then
          match config.wrap_remote with
          | none => .ok none
          | some wrapName =>
            match fuel with
            | 0 => .diverge
            | fuel' + 1 => resolve_remote remotes fuel' wrapName
        else .ok none
      match wrapOut with
      | .diverge => .diverge
      | .ok wrap =>
        let cryptFields :=
          match config.crypt with
          | some cc =>
            (some cc.password_env, cc.password2_env, some (feName cc.filename_encryption),
              some cc.directory_name_encryption)
          | none => (none, none, none, none)
        .ok (some (ResolvedRemote.mk name config.rtype config.bucket config.prePath
          config.options wrap config.wrap_path cryptFields.1 cryptFields.2.1
          cryptFields.2.2.1 cryptFields.2.2.2))

/-- `PlanContext::resolve_operation` (`plan.rs` lines 199-212). -/
def PlanContext.resolve_operation (ctx : PlanContext) (sp_transfers sp_checkers : Option Nat)
    (sp_bwlimit : Option String) : OperationSettings :=
  { transfers := sp_transfers <|> ctx.defaults.bind (fun d => d.transfers)
    checkers := sp_checkers <|> ctx.defaults.bind (fun d => d.checkers)
    bwlimit := sp_bwlimit <|> ctx.defaults.bind (fun d => d.bwlimit) }

/-- `PlanContext::effective_remote_name` (`plan.rs` lines 215-220). -/
def PlanContext.effective_remote_name (ctx : PlanContext) (sp_remote : Option String) :
    Option String :=
  sp_remote <|> ctx.default_remote

/-- `sync_path_to_action` (`plan.rs` lines 259-294).  Returns `none` exactly
when the unguarded remote resolution would not terminate. -/
def sync_path_to_action (fuel : Nat) (ctx : PlanContext) (sp : SyncPath)
    (interval_override : Option Nat) : Option SyncAction :=
  let remoteOut : ResolveOutcome :=
    match ctx.effective_remote_name sp.remote with
    | none => .ok none
    | some n => resolve_remote ctx.remotes fuel n
  match remoteOut with
  | .diverge => none
  | .ok remote =>
    let operation := ctx.resolve_operation sp.transfers sp.checkers sp.bwlimit
    let remote_path :=
      match remote with
      | some r =>
        match ResolvedRemote.prePath r with
        | some pre => trim_end_matches_slash pre ++ "/" ++ ctx.resolve sp.remote_path
        | none => ctx.resolve sp.remote_path
      | none => ctx.resolve sp.remote_path
    some
      { name := sp.name
        local_path := sp.path
        remote_path := remote_path
        direction := sp.direction
        interval_secs := interval_override.getD sp.interval
        priority := sp.priority
        excludes := sp.exclude
        remote := remote
        operation := operation }

/-- `volume_to_action` (`plan.rs` lines 297-332). -/
def volume_to_action (fuel : Nat) (ctx : PlanContext) (vol : RcloneVolumeConfig)
    (interval_override : Option Nat) : Option SyncAction :=
  let remoteOut : ResolveOutcome :=
    match ctx.default_remote with
    | none => .ok none
    | some n => resolve_remote ctx.remotes fuel n
  match remoteOut with
  | .diverge => none
  | .ok remote =>
    let operation := ctx.resolve_operation none none none
    let remote_path :=
      match remote with
      | some r =>
        match ResolvedRemote.prePath r with
        | some pre => trim_end_matches_slash pre ++ "/" ++ ctx.resolve vol.remote_path
        | none => ctx.resolve vol.remote_path
      | none => ctx.resolve vol.remote_path
    some
      { name := vol.name
        local_path := vol.mount_path
        remote_path := remote_path
        direction := vol.sync
        interval_secs := interval_override.getD vol.interval
        priority := vol.priority
        excludes := vol.exclude
        remote := remote
        operation := operation }

/-- Stable insertion of an action into a priority-sorted list: the new element
goes after every element of strictly smaller priority and before the first
element of greater-or-equal priority. -/
def insertByPriority (a : SyncAction) : List SyncAction → List SyncAction
  | [] => [a]
  | b :: t => if b.priority < a.priority then b :: insertByPriority a t else a :: b :: t

/-- The effect of `actions.sort_by_key(|a| a.priority)` (`plan.rs` line 250):
Rust's `sort_by_key` is a stable sort, and the stable sort of a list by a key
is the unique permutation that is sorted by the key and keeps equal-key
elements in their original relative order — which insertion sort computes. -/
def sort_by_priority : List SyncAction → List SyncAction
  | [] => []
  | a :: t => insertByPriority a (sort_by_priority t)

/-- The unsorted action list of `build_plan` (`plan.rs` lines 233-247): one
action per `persistence.sync` entry, in order, followed by one per
`multi_scope_volumes.environment` entry, in order. -/
def build_actions (fuel : Nat) (spec : WorkspaceSpec) (interval_override : Option Nat) :
    Option (List SyncAction) :=
  let ctx := PlanContext.from_spec spec
  let vols :=
    match spec.persistence.multi_scope_volumes with
    | some msv => msv.environment
    | none => []
  do
    let syncActs ← spec.persistence.sync.mapM
      (fun sp => sync_path_to_action fuel ctx sp interval_override)
    let volActs ← vols.mapM (fun v => volume_to_action fuel ctx v interval_override)
    pure (syncActs ++ volActs)

/-- `build_plan` (`plan.rs` lines 233-256). -/
def build_plan (fuel : Nat) (spec : WorkspaceSpec) (interval_override : Option Nat) :
    Option SyncPlan :=
  (build_actions fuel spec interval_override).map
    (fun acts => { workspace_name := spec.name, actions := sort_by_priority acts })

/-! ### Semantic validation of remotes (`config.rs`) -/

/-- The remote-related cases of `ConfigError` (`config.rs` lines 52-65). -/
inductive ConfigError where
  | s3RemoteMissingBucket (name : String)
  | cryptRemoteMissingWrapRemote (name : String)
  | cryptRemoteMissingConfig (name : String)
  | wrapRemoteNotFound (name wrap : String)
  | circularWrapRemote (name : String)
deriving DecidableEq

/-- The per-remote checks of `WorkspaceSpec::validate_remotes` (`config.rs`
lines 172-201): s3 remotes need a bucket; crypt remotes need `wrap_remote`
and a crypt config, the wrap target must exist, and the only cycle check is
the single-hop self-reference `wrap == name`. -/
def validate_remote_entry (remotes : List (String × RemoteConfig)) (name : String)
    (remote : RemoteConfig) : Except ConfigError Unit :=
  if remote.rtype == "s3" && remote.bucket.isNone then
    .error (.s3RemoteMissingBucket name)
  else if remote.rtype == "crypt" then
    match remote.wrap_remote with
    | none => .error (.cryptRemoteMissingWrapRemote name)
    | some wrap =>
      if remote.crypt.isNone then .error (.cryptRemoteMissingConfig name)
      else if (lookupRemote remotes wrap).isNone then .error (.wrapRemoteNotFound name wrap)
      else if wrap == name then .error (.circularWrapRemote name)
      else .ok ()
  else .ok ()

/-- Worker for `validate_remote_entries`, iterating the map in key order. -/
def validate_remote_entries_go (all : List (String × RemoteConfig)) :
    List (String × RemoteConfig) → Except ConfigError Unit
  | [] => .ok ()
  | (n, r) :: rest =>
    match validate_remote_entry all n r with
    | .error e => .error e
    | .ok _ => validate_remote_entries_go all rest

/-- The remote-map loop of `WorkspaceSpec::validate_remotes` (`config.rs`
lines 172-201), returning the first error in key order. -/
def validate_remote_entries (remotes : List (String × RemoteConfig)) :
    Except ConfigError Unit :=
  validate_remote_entries_go remotes remotes

/-! ### Connection strings (`sync.rs` lines 213-250) -/

/-- `quote_rclone_value` (`sync.rs` lines 217-225): wrap in single quotes when
the value contains `:`, `,`, `'` or `"`, doubling embedded single quotes. -/
def quote_rclone_value (value : String) : String :=
  if value.data.contains ':' || value.data.contains ',' || value.data.contains squote
      || value.data.contains dquote then
    String.mk (squote :: (replaceAll [squote] [squote, squote] value.data ++ [squote]))
  else value

/-- `build_storage_backend` (`sync.rs` lines 228-250), with the ambient
process environment abstracted as `env`. -/
def build_storage_backend (env : String → Option String) (remote : ResolvedRemote)
    (remote_path : String) : String :=
  let bucketOpts : List String :=
    match ResolvedRemote.bucket remote with
    | some b => ["bucket=" ++ quote_rclone_value (expand_env_vars env b)]
    | none => []
  let optPairs : List String :=
    (ResolvedRemote.options remote).map
      (fun kv => kv.1 ++ "=" ++ quote_rclone_value (expand_env_vars env kv.2))
  let opts := bucketOpts ++ optPairs
  let opts_str := if opts.isEmpty then "" else "," ++ String.intercalate "," opts
  ":" ++ ResolvedRemote.remote_type remote ++ opts_str ++ ":" ++ remote_path

/-! ### Health record (`sync.rs` lines 59-140) -/

/-- `HealthStatus` (`sync.rs` lines 61-72), timestamps as epoch seconds. -/
structure HealthStatus where
  healthy : Bool
  last_success : Option Nat
  last_attempt : Nat
  consecutive_failures : Nat
  last_error : Option String
deriving DecidableEq

/-- The fresh record `update_health` substitutes for a missing or unparsable
health file (`sync.rs` lines 93-107). -/
def freshHealth : HealthStatus :=
  { healthy := true
    last_success := none
    last_attempt := 0
    consecutive_failures := 0
    last_error := none }

/-- `SyncResult` (`sync.rs` lines 317-328). -/
structure SyncResult where
  name : String
  success : Bool
  error : Option String
  was_resync : Bool
  attempts : Nat
deriving DecidableEq

/-- `PlanResult` (`sync.rs` lines 597-604). -/
structure PlanResult where
  results : List SyncResult
  success_count : Nat
  failure_count : Nat
deriving DecidableEq

/-- `PlanResult::all_success` (`sync.rs` lines 607-610). -/
def PlanResult.all_success (p : PlanResult) : Bool := p.failure_count == 0

/-- The pure state transition of `update_health` (`sync.rs` lines 80-140):
`prior` is the parsed existing record (`none` for missing or unparsable),
`now` the current epoch seconds, `result` the pass result. -/
def update_health (prior : Option HealthStatus) (now : Nat) (result : PlanResult) :
    HealthStatus :=
  let status := prior.getD freshHealth
  let status := { status with last_attempt := now }
  if PlanResult.all_success result then
    { status with
        healthy := true
        last_success := some now
        consecutive_failures := 0
        last_error := none }
  else
    let cf := status.consecutive_failures + 1
    { status with
        consecutive_failures := cf
        healthy := if 3 ≤ cf then false else status.healthy
        last_error := result.results.findSome? (fun r => r.error) }

/-! ### Execution engine (`sync.rs` lines 353-657) -/

/-- `DEFAULT_MAX_RETRIES` (`sync.rs` line 22). -/
def DEFAULT_MAX_RETRIES : Nat := 3

/-- `RETRY_BASE_DELAY_MS` (`sync.rs` line 25). -/
def RETRY_BASE_DELAY_MS : Nat := 1000

/-- Classification of one `execute_sync_attempt` call (`sync.rs` lines
459-466 together with the attempt body): success, a retryable error, a
non-retryable error, or a recoverable skip. -/
inductive AttemptOutcome where
  | ok
  | retryable (msg : String)
  | notRetryable (msg : String)
  | skipped
deriving DecidableEq

/-- The effectful surroundings of the executor, made explicit: whether a local
path exists, the classified outcome of attempt number `n` (1-based) for a
given action name, and which bisync marker files exist. -/
structure ExecEnv where
  localExists : String → Bool
  attempt : String → Nat → AttemptOutcome
  markers : String → Bool

/-- The retry loop of `execute_sync` (`sync.rs` lines 388-456), iterating the
attempt numbers `1..=DEFAULT_MAX_RETRIES`.  Besides the `SyncResult` it
returns the list of backoff delays (ms) slept between attempts
(`RETRY_BASE_DELAY_MS * 2^(attempt-1)`, and none after the final attempt). -/
def retry_go (att : Nat → AttemptOutcome) (name : String) (resync : Bool) :
    List Nat → Option String → SyncResult × List Nat
  | [], lastError =>
    ({ name := name, success := false, error := lastError, was_resync := resync,
       attempts := DEFAULT_MAX_RETRIES }, [])
  | attempt :: rest, _lastError =>
    match att attempt with
    | .ok =>
      ({ name := name, success := true, error := none, was_resync := resync,
         attempts := attempt }, [])
    | .notRetryable msg =>
      ({ name := name, success := false, error := some msg, was_resync := resync,
         attempts := attempt }, [])
    | .skipped =>
      ({ name := name, success := true, error := none, was_resync := resync,
         attempts := attempt }, [])
    | .retryable msg =>
      if attempt < DEFAULT_MAX_RETRIES then
        let next := retry_go att name resync rest (some msg)
        (next.1, RETRY_BASE_DELAY_MS * 2 ^ (attempt - 1) :: next.2)
      else retry_go att name resync rest (some msg)

/-- `execute_sync` (`sync.rs` lines 358-456): missing local path is a
successful skip with zero attempts; an absent resolved remote is a
non-retryable failure with zero attempts; otherwise the retry loop runs.
The built backend string and `dry_run` only shape the subprocess call, whose
classified outcome the `ExecEnv.attempt` oracle supplies. -/
def execute_sync (env : ExecEnv) (action : SyncAction) (dry_run resync : Bool) :
    SyncResult × List Nat :=
  if !(env.localExists action.local_path) then
    ({ name := action.name, success := true, error := none, was_resync := false,
       attempts := 0 }, [])
  else
    match action.remote with
    | none =>
      ({ name := action.name, success := false,
         error := some "no remote configured for sync action", was_resync := false,
         attempts := 0 }, [])
    | some _ =>
      let _ := dry_run
      retry_go (env.attempt action.name) action.name resync
        (List.range' 1 DEFAULT_MAX_RETRIES) none

/-- Worker for `execute_plan` (`sync.rs` lines 615-657): runs the actions in
order, computing `needs_resync` from the marker set, threading the marker
updates of `mark_initialized`, and accumulating results and counts.  Returns
`(results, success_count, failure_count)`. -/
def execute_plan_go (env : ExecEnv) (dry_run : Bool) :
    List SyncAction → (String → Bool) → List SyncResult × Nat × Nat
  | [], _ => ([], 0, 0)
  | action :: rest, markers =>
    let resync := action.direction == SyncDirection.bidirectional && !(markers action.name)
    let r := (execute_sync env action dry_run resync).1
    let markers' :=
      if r.success && r.was_resync && !dry_run then
        fun n => n == action.name || markers n
      else markers
    let tail := execute_plan_go env dry_run rest markers'
    (r :: tail.1,
      (if r.success then tail.2.1 + 1 else tail.2.1),
      (if r.success then tail.2.2 else tail.2.2 + 1))

/-- `execute_plan` (`sync.rs` lines 615-657). -/
def execute_plan (env : ExecEnv) (plan : SyncPlan) (dry_run : Bool) : PlanResult :=
  let out := execute_plan_go env dry_run plan.actions env.markers
  { results := out.1, success_count := out.2.1, failure_count := out.2.2 }

/-! ### Predicates and helpers used by the statements -/

/-- The invariant that `wrap_remote` is populated only on `"crypt"` nodes,
recursively through the resolved tree. -/
inductive CryptInv : ResolvedRemote → Prop where
  | mk (name remote_type : String) (bucket prePathF : Option String)
      (options : List (String × String)) (wrap : Option ResolvedRemote)
      (wrap_path password_env password2_env filename_encryption : Option String)
      (dne : Option Bool)
      (hty : remote_type ≠ "crypt" → wrap = none)
      (hrec : ∀ r', wrap = some r' → CryptInv r') :
      CryptInv (ResolvedRemote.mk name remote_type bucket prePathF options wrap wrap_path
        password_env password2_env filename_encryption dne)

/-- Tag for one of the three placeholders. -/
inductive PH where
  | org
  | proj
  | env
deriving DecidableEq

/-- One single-placeholder replacement pass over a character list. -/
def substStep (ctx : PlanContext) : PH → List Char → List Char
  | .org, s => replaceAll orgPat ctx.org.data s
  | .proj, s => replaceAll projPat ctx.project.data s
  | .env, s => replaceAll envPat ctx.env.data s

/-- Sequential application of single-placeholder replacement passes; the
fixed order `[.org, .proj, .env]` is exactly `PlanContext.resolve`. -/
def substSeq (ctx : PlanContext) (ks : List PH) (t : List Char) : List Char :=
  ks.foldl (fun s k => substStep ctx k s) t

/-- Fueled simultaneous substitution of the three placeholders: at each
position consume a placeholder occurrence (checking `{org}`, `{project}`,
`{env}` — they never overlap) or copy one character.  Fuel equal to the input
length is sufficient. -/
def substParF (o p e : List Char) : Nat → List Char → List Char
  | 0, s => s
  | fuel + 1, s =>
    match s with
    | [] => []
    | c :: t =>
      match stripLead orgPat (c :: t) with
      | some rest => o ++ substParF o p e fuel rest
      | none =>
        match stripLead projPat (c :: t) with
        | some rest => p ++ substParF o p e fuel rest
        | none =>
          match stripLead envPat (c :: t) with
          | some rest => e ++ substParF o p e fuel rest
          | none => c :: substParF o p e fuel t

/-- Simultaneous substitution of the three placeholders. -/
def substParL (o p e s : List Char) : List Char := substParF o p e s.length s

/-- A template is well-formed when every `{` in it begins one of the three
placeholder occurrences: substituting empty strings for all placeholders must
leave no `{` behind. -/
def goodTemplate (t : List Char) : Prop := '{' ∉ substParL [] [] [] t

/-- A character list without the left-brace character. -/
def noLBrace (s : List Char) : Prop := '{' ∉ s

instance goodTemplate.instDecidable (t : List Char) : Decidable (goodTemplate t) :=
  inferInstanceAs (Decidable ('{' ∉ substParL [] [] [] t))

instance noLBrace.instDecidable (s : List Char) : Decidable (noLBrace s) :=
  inferInstanceAs (Decidable ('{' ∉ s))

/-! ### Concrete inputs used by witnesses and counterexamples -/

/-- Empty operation settings (no overrides, no defaults). -/
def opNone : OperationSettings := { transfers := none, checkers := none, bwlimit := none }

/-- A crypt configuration for the cyclic-wrap scenario. -/
def cycCrypt : CryptConfig :=
  { password_env := "PW"
    password2_env := none
    filename_encryption := .standard
    directory_name_encryption := true }

/-- Remote map with a two-hop wrap cycle: `A` wraps `B` and `B` wraps `A`.
Each entry individually satisfies every check of `validate_remotes`. -/
def cycRemotes : List (String × RemoteConfig) :=
  [("A",
    { rtype := "crypt"
      bucket := none
      prePath := none
      options := []
      wrap_remote := some "B"
      wrap_path := none
      crypt := some cycCrypt }),
   ("B",
    { rtype := "crypt"
      bucket := none
      prePath := none
      options := []
      wrap_remote := some "A"
      wrap_path := none
      crypt := some cycCrypt })]

/-- The s3 remote of the connection-string scenario: bucket `b` and the single
option `endpoint=https://x.example.com`. -/
def c2remote : ResolvedRemote :=
  ResolvedRemote.mk "r2" "s3" (some "b") none [("endpoint", "https://x.example.com")]
    none none none none none none

/-- The expected backend string of the scenario (single quotes spelled via
`sqt`). -/
def c2expected : String :=
  ":s3,bucket=b,endpoint=" ++ sqt ++ "https://x.example.com" ++ sqt ++ ":p"

/-- A resolved remote for the retry scenario. -/
def c3remote : ResolvedRemote :=
  ResolvedRemote.mk "r" "s3" (some "b") none [] none none none none none none

/-- An action with a resolved remote, for the retry scenario. -/
def c3action : SyncAction :=
  { name := "a"
    local_path := "/x"
    remote_path := "rp"
    direction := .pushOnly
    interval_secs := 60
    priority := 1
    excludes := []
    remote := some c3remote
    operation := opNone }

/-- An environment whose every attempt fails with a retryable error. -/
def c3env : ExecEnv :=
  { localExists := fun _ => true
    attempt := fun _ _ => .retryable "boom"
    markers := fun _ => false }

/-- A plan result with one failed action. -/
def c4fail : PlanResult :=
  { results := [{ name := "a", success := false, error := some "E", was_resync := false,
                  attempts := 3 }]
    success_count := 0
    failure_count := 1 }

/-- A plan result with one successful action. -/
def c4ok : PlanResult :=
  { results := [{ name := "a", success := true, error := none, was_resync := false,
                  attempts := 1 }]
    success_count := 1
    failure_count := 0 }

/-- A context whose single remote carries the path prefix `p//` (two trailing
slashes). -/
def c5ctx : PlanContext :=
  { org := "o"
    project := "pr"
    env := "dev"
    remotes := [("r",
      { rtype := "s3"
        bucket := some "b"
        prePath := some "p//"
        options := []
        wrap_remote := none
        wrap_path := none
        crypt := none })]
    default_remote := none
    defaults := none }

/-- A sync entry using that remote with remote path `x`. -/
def c5sp : SyncPath :=
  { name := "s"
    path := "/local"
    remote_path := "x"
    remote := some "r"
    direction := .pushOnly
    interval := 60
    priority := 1
    exclude := []
    transfers := none
    checkers := none
    bwlimit := none }

/-- The action the planner builds from `c5ctx`/`c5sp`. -/
def c5action : SyncAction :=
  { name := "s"
    local_path := "/local"
    remote_path := "p/x"
    direction := .pushOnly
    interval_secs := 60
    priority := 1
    excludes := []
    remote := some (ResolvedRemote.mk "r" "s3" (some "b") (some "p//") [] none none
      none none none none)
    operation := opNone }

/-- A context whose org value itself contains the `{env}` placeholder. -/
def c6ctxA : PlanContext :=
  { org := "{env}"
    project := "P"
    env := "E"
    remotes := []
    default_remote := none
    defaults := none }

/-- A context whose env value itself contains the `{org}` placeholder. -/
def c6ctxB : PlanContext :=
  { org := "A"
    project := "P"
    env := "{org}"
    remotes := []
    default_remote := none
    defaults := none }

/-- A placeholder-free context for the substitution witness. -/
def c6wctx : PlanContext :=
  { org := "myorg"
    project := "myproj"
    env := "dev"
    remotes := []
    default_remote := none
    defaults := none }

/-- A context whose default remote name is absent from the remote map. -/
def c7ctx : PlanContext :=
  { org := "o"
    project := "p"
    env := "e"
    remotes := [("primary",
      { rtype := "s3"
        bucket := some "b"
        prePath := none
        options := []
        wrap_remote := none
        wrap_path := none
        crypt := none })]
    default_remote := some "missing"
    defaults := none }

/-- A sync entry with no per-entry remote (falls back to the default). -/
def c7sp : SyncPath :=
  { name := "w"
    path := "/w"
    remote_path := "d"
    remote := none
    direction := .pushOnly
    interval := 60
    priority := 2
    exclude := []
    transfers := none
    checkers := none
    bwlimit := none }

/-- The action the planner builds from `c7ctx`/`c7sp`: its remote is absent. -/
def c7action : SyncAction :=
  { name := "w"
    local_path := "/w"
    remote_path := "d"
    direction := .pushOnly
    interval_secs := 60
    priority := 2
    excludes := []
    remote := none
    operation := opNone }

/-- An environment where every local path exists. -/
def c7env : ExecEnv :=
  { localExists := fun _ => true
    attempt := fun _ _ => .ok
    markers := fun _ => false }

/-- A spec with sync entries of priorities 5 and 1 (in that order) and an
environment volume of priority 1. -/
def c8spec : WorkspaceSpec :=
  { name := "w"
    metadata := { org := "o", project := "p", environment := "e" }
    persistence :=
      { remotes := []
        default_remote := none
        defaults := none
        sync :=
          [{ name := "a"
             path := "/a"
             remote_path := "ra"
             remote := none
             direction := .pushOnly
             interval := 60
             priority := 5
             exclude := []
             transfers := none
             checkers := none
             bwlimit := none },
           { name := "b"
             path := "/b"
             remote_path := "rb"
             remote := none
             direction := .pushOnly
             interval := 60
             priority := 1
             exclude := []
             transfers := none
             checkers := none
             bwlimit := none }]
        multi_scope_volumes := some
          { environment :=
            [{ name := "v"
               remote_path := "rv"
               mount_path := "/v"
               sync := .pushOnly
               interval := 60
               priority := 1
               exclude := []
               read_only := false }] } } }

/-- The unsorted action list `build_actions` produces from `c8spec`. -/
def c8acts : List SyncAction :=
  [{ name := "a"
     local_path := "/a"
     remote_path := "ra"
     direction := .pushOnly
     interval_secs := 60
     priority := 5
     excludes := []
     remote := none
     operation := opNone },
   { name := "b"
     local_path := "/b"
     remote_path := "rb"
     direction := .pushOnly
     interval_secs := 60
     priority := 1
     excludes := []
     remote := none
     operation := opNone },
   { name := "v"
     local_path := "/v"
     remote_path := "rv"
     direction := .pushOnly
     interval_secs := 60
     priority := 1
     excludes := []
     remote := none
     operation := opNone }]

/-- A remote map with a single non-crypt remote that nonetheless carries a
`wrap_remote` name. -/
def c9remotes : List (String × RemoteConfig) :=
  [("x",
    { rtype := "s3"
      bucket := some "b"
      prePath := none
      options := []
      wrap_remote := some "x"
      wrap_path := none
      crypt := none })]

/-- Its resolution: `wrap_remote` comes out `none` because the type is not
`"crypt"`. -/
def c9resolved : ResolvedRemote :=
  ResolvedRemote.mk "x" "s3" (some "b") none [] none none none none none none

/-! ## Theorems -/

/-! ### General lemmas about the resolver -/

theorem resolve_remote_crypt_step (remotes : List (String × RemoteConfig)) (name : String)
    (cfg : RemoteConfig) (wn : String) (n : Nat)
    (hl : lookupRemote remotes name = some cfg) (ht : cfg.rtype = "crypt")
    (hw : cfg.wrap_remote = some wn)
    (hd : resolve_remote remotes n wn = ResolveOutcome.diverge) :
    resolve_remote remotes (n + 1) name = ResolveOutcome.diverge := by
  rw [resolve_remote, hl]
  simp only [ht, hw, hd, beq_self_eq_true, if_true]

/-- Claim C1 (code bug): the semantic validator accepts the two-remote wrap
cycle `A ↔ B` (its only cycle check is the single-hop `wrap == name`), yet
`resolve_remote` has no cycle guard, so resolving `A` recurses forever — for
every recursion-depth fuel the embedding reports divergence instead of the
fail-closed `None` the specification mandates. -/
theorem resolve_remote_cycle_diverges :
    validate_remote_entries cycRemotes = Except.ok ()
    ∧ ∀ fuel, resolve_remote cycRemotes fuel "A" = ResolveOutcome.diverge := by
  have key : ∀ fuel, resolve_remote cycRemotes fuel "A" = ResolveOutcome.diverge
      ∧ resolve_remote cycRemotes fuel "B" = ResolveOutcome.diverge := by
    intro fuel
    induction fuel with
    | zero => exact ⟨rfl, rfl⟩
    | succ n ih =>
      refine ⟨?_, ?_⟩
      · exact resolve_remote_crypt_step cycRemotes "A" _ "B" n rfl rfl rfl ih.2
      · exact resolve_remote_crypt_step cycRemotes "B" _ "A" n rfl rfl rfl ih.1
  exact ⟨rfl, fun fuel => (key fuel).1⟩

/-- Claim C9: every successfully resolved remote satisfies the invariant that
`wrap_remote` is populated only on nodes whose `remote_type` is `"crypt"`,
recursively through the whole resolved tree. -/
theorem resolve_remote_wrap_only_crypt (remotes : List (String × RemoteConfig)) (fuel : Nat)
    (name : String) (r : ResolvedRemote)
    (h : resolve_remote remotes fuel name = ResolveOutcome.ok (some r)) : CryptInv r := by
  induction fuel generalizing name r with
  | zero =>
    rw [resolve_remote] at h
    cases hl : lookupRemote remotes name with
    | none => rw [hl] at h; exact absurd h (by simp)
    | some cfg =>
      rw [hl] at h
      by_cases ht : cfg.rtype = "crypt"
      · cases hw : cfg.wrap_remote with
        | none =>
          simp only [ht, hw, beq_self_eq_true, if_true] at h
          cases h
          exact CryptInv.mk _ _ _ _ _ _ _ _ _ _ _ (fun _ => rfl) (fun r' hr' => by cases hr')
        | some wn =>
          simp only [ht, hw, beq_self_eq_true, if_true] at h
          cases h
      · have hb : (cfg.rtype == "crypt") = false := by simpa [beq_eq_false_iff_ne] using ht
        simp only [hb, Bool.false_eq_true, if_false] at h
        cases h
        exact CryptInv.mk _ _ _ _ _ _ _ _ _ _ _ (fun _ => rfl) (fun r' hr' => by cases hr')
  | succ n ih =>
    rw [resolve_remote] at h
    cases hl : lookupRemote remotes name with
    | none => rw [hl] at h; exact absurd h (by simp)
    | some cfg =>
      rw [hl] at h
      by_cases ht : cfg.rtype = "crypt"
      · cases hw : cfg.wrap_remote with
        | none =>
          simp only [ht, hw, beq_self_eq_true, if_true] at h
          cases h
          exact CryptInv.mk _ _ _ _ _ _ _ _ _ _ _ (fun _ => rfl) (fun r' hr' => by cases hr')
        | some wn =>
          simp only [ht, hw, beq_self_eq_true, if_true] at h
          cases hres : resolve_remote remotes n wn with
          | diverge => rw [hres] at h; exact absurd h (by simp)
          | ok wrap =>
            rw [hres] at h
            cases h
            refine CryptInv.mk _ _ _ _ _ _ _ _ _ _ _ (fun hne => absurd rfl hne) ?_
            intro r' hr'
            subst hr'
            exact ih wn r' hres
      · have hb : (cfg.rtype == "crypt") = false := by simpa [beq_eq_false_iff_ne] using ht
        simp only [hb, Bool.false_eq_true, if_false] at h
        cases h
        exact CryptInv.mk _ _ _ _ _ _ _ _ _ _ _ (fun _ => rfl) (fun r' hr' => by cases hr')

/-- Claim C9 witness: a non-crypt remote carrying a `wrap_remote` name
resolves with `wrap_remote = none`, and the invariant holds for it. -/
theorem resolve_remote_wrap_only_crypt_witness : CryptInv c9resolved :=
  resolve_remote_wrap_only_crypt c9remotes 0 "x" c9resolved rfl

/-! ### Lemmas about the executor -/

theorem retry_go_fst_name (att : Nat → AttemptOutcome) (name : String) (resync : Bool) :
    ∀ (l : List Nat) (le : Option String), (retry_go att name resync l le).1.name = name := by
  intro l
  induction l with
  | nil => intro le; rfl
  | cons a rest ih =>
    intro le
    simp only [retry_go]
    cases att a with
    | ok => rfl
    | notRetryable m => rfl
    | skipped => rfl
    | retryable m =>
      by_cases hlt : a < DEFAULT_MAX_RETRIES
      · simp only [if_pos hlt]; exact ih _
      · simp only [if_neg hlt]; exact ih _

theorem execute_sync_fst_name (env : ExecEnv) (action : SyncAction) (dry_run resync : Bool) :
    (execute_sync env action dry_run resync).1.name = action.name := by
  rw [execute_sync]
  cases h : env.localExists action.local_path with
  | false => simp only [h]; rfl
  | true =>
    simp only [h]
    cases action.remote with
    | none => rfl
    | some r => exact retry_go_fst_name _ _ _ _ _

theorem execute_plan_go_cons (env : ExecEnv) (dry : Bool) (a : SyncAction)
    (rest : List SyncAction) (m : String → Bool) :
    ∃ (r : SyncResult) (M : String → Bool),
      r.name = a.name ∧
      execute_plan_go env dry (a :: rest) m =
        (r :: (execute_plan_go env dry rest M).1,
         (if r.success then (execute_plan_go env dry rest M).2.1 + 1
          else (execute_plan_go env dry rest M).2.1),
         (if r.success then (execute_plan_go env dry rest M).2.2
          else (execute_plan_go env dry rest M).2.2 + 1)) :=
  ⟨_, _, execute_sync_fst_name env a dry _, rfl⟩

theorem execute_plan_go_spec (env : ExecEnv) (dry : Bool) :
    ∀ (acts : List SyncAction) (m : String → Bool),
      (execute_plan_go env dry acts m).1.length = acts.length
      ∧ (execute_plan_go env dry acts m).1.map (fun r => r.name) = acts.map (fun a => a.name)
      ∧ (execute_plan_go env dry acts m).2.1 + (execute_plan_go env dry acts m).2.2 = acts.length
      ∧ ((execute_plan_go env dry acts m).2.2 = 0
          ↔ (execute_plan_go env dry acts m).1.all (fun r => r.success) = true) := by
  intro acts
  induction acts with
  | nil => intro m; exact ⟨rfl, rfl, rfl, by simp [execute_plan_go]⟩
  | cons a rest ih =>
    intro m
    obtain ⟨r, M, hname, heq⟩ := execute_plan_go_cons env dry a rest m
    obtain ⟨ih1, ih2, ih3, ih4⟩ := ih M
    rw [heq]
    refine ⟨by simp [ih1], by simp [hname, ih2], ?_, ?_⟩
    · cases hrs : r.success <;> simp [hrs] <;> omega
    · cases hrs : r.success <;> simp [hrs, ih4]

/-- Claim C10: `execute_plan` returns exactly one result per action, in plan
order (witnessed by the name lists agreeing), its success and failure counts
sum to the number of actions, and `all_success` holds exactly when every
per-action result succeeded. -/
theorem execute_plan_result_shape (env : ExecEnv) (plan : SyncPlan) (dry_run : Bool) :
    (execute_plan env plan dry_run).results.length = plan.actions.length
    ∧ (execute_plan env plan dry_run).results.map (fun r => r.name)
        = plan.actions.map (fun a => a.name)
    ∧ (execute_plan env plan dry_run).success_count
        + (execute_plan env plan dry_run).failure_count = plan.actions.length
    ∧ (PlanResult.all_success (execute_plan env plan dry_run) = true
        ↔ (execute_plan env plan dry_run).results.all (fun r => r.success) = true) := by
  obtain ⟨h1, h2, h3, h4⟩ := execute_plan_go_spec env dry_run plan.actions env.markers
  refine ⟨h1, h2, h3, ?_⟩
  simpa [execute_plan, PlanResult.all_success] using h4

/-- Claim C3: when every attempt of an action with a resolved remote fails
with a retryable error, `execute_sync` makes exactly `DEFAULT_MAX_RETRIES = 3`
attempts, sleeps exactly twice (the second backoff twice the first), and
returns a failure carrying the last error message and attempt count 3. -/
theorem execute_sync_retry_exhaustion (env : ExecEnv) (action : SyncAction)
    (r : ResolvedRemote) (dry_run resync : Bool) (m : Nat → String)
    (hl : env.localExists action.local_path = true)
    (hr : action.remote = some r)
    (ha : ∀ n, env.attempt action.name n = AttemptOutcome.retryable (m n)) :
    execute_sync env action dry_run resync =
      ({ name := action.name, success := false, error := some (m 3), was_resync := resync,
         attempts := 3 },
       [RETRY_BASE_DELAY_MS, 2 * RETRY_BASE_DELAY_MS]) := by
  rw [execute_sync]
  simp only [hl, Bool.not_true, Bool.false_eq_true, if_false, hr]
  have hrange : List.range' 1 DEFAULT_MAX_RETRIES = [1, 2, 3] := rfl
  rw [hrange]
  simp only [retry_go, ha 1, ha 2, ha 3]
  norm_num [DEFAULT_MAX_RETRIES, RETRY_BASE_DELAY_MS]

/-- Claim C3 witness: a concrete always-retryable environment produces the
predicted three attempts and backoffs `[1000, 2000]`. -/
theorem execute_sync_retry_exhaustion_witness :
    execute_sync c3env c3action false false =
      ({ name := "a", success := false, error := some "boom", was_resync := false,
         attempts := 3 }, [1000, 2000]) := by
  have h := execute_sync_retry_exhaustion c3env c3action c3remote false false
    (fun _ => "boom") rfl rfl (fun _ => rfl)
  simpa using h

/-- Claim C7: a sync entry whose effective remote name is absent from the
remote map still yields a plan action (no failure), with an absent resolved
remote; executing that action (when its local path exists) fails
non-retryably with the "no remote configured" message and zero attempts. -/
theorem missing_remote_inert_action (fuel : Nat) (ctx : PlanContext) (sp : SyncPath)
    (io : Option Nat) (n : String)
    (hn : PlanContext.effective_remote_name ctx sp.remote = some n)
    (hm : lookupRemote ctx.remotes n = none) :
    Option.map (fun a => a.remote) (sync_path_to_action fuel ctx sp io) = some none
    ∧ ∀ (env : ExecEnv) (a : SyncAction) (dry_run resync : Bool),
        sync_path_to_action fuel ctx sp io = some a →
        env.localExists a.local_path = true →
        execute_sync env a dry_run resync =
          ({ name := a.name, success := false,
             error := some "no remote configured for sync action", was_resync := false,
             attempts := 0 }, []) := by
  have hact : sync_path_to_action fuel ctx sp io = some
      { name := sp.name
        local_path := sp.path
        remote_path := ctx.resolve sp.remote_path
        direction := sp.direction
        interval_secs := io.getD sp.interval
        priority := sp.priority
        excludes := sp.exclude
        remote := none
        operation := ctx.resolve_operation sp.transfers sp.checkers sp.bwlimit } := by
    rw [sync_path_to_action]
    simp only [hn, resolve_remote.eq_def, hm]
  refine ⟨by rw [hact]; rfl, ?_⟩
  intro env a dry_run resync ha hl
  rw [hact] at ha
  cases ha
  rw [execute_sync]
  simp only [hl, Bool.not_true, Bool.false_eq_true, if_false]

/-- Claim C7 witness: a concrete entry whose default remote name is missing
from the map builds an inert action that fails as predicted. -/
theorem missing_remote_inert_action_witness :
    Option.map (fun a => a.remote) (sync_path_to_action 0 c7ctx c7sp none) = some none
    ∧ execute_sync c7env c7action false false =
        ({ name := "w", success := false,
           error := some "no remote configured for sync action", was_resync := false,
           attempts := 0 }, []) := by
  have h := missing_remote_inert_action 0 c7ctx c7sp none "missing" rfl rfl
  exact ⟨h.1, h.2 c7env c7action false false rfl rfl⟩

/-- Claim C4: `update_health` always stamps `last_attempt`; an all-success
pass resets the record to healthy with `consecutive_failures = 0`; a failing
pass increments the streak, stores the first error of the pass, and assigns
`healthy := false` exactly when the streak has reached 3 (otherwise the prior
flag is kept); consequently three failing passes from a fresh record flip
`healthy` to false and the next successful pass restores it with a zero
streak. -/
theorem update_health_spec (prior : Option HealthStatus) (now : Nat) (result : PlanResult) :
    (update_health prior now result).last_attempt = now
    ∧ (PlanResult.all_success result = true →
        update_health prior now result =
          { healthy := true, last_success := some now, last_attempt := now,
            consecutive_failures := 0, last_error := none })
    ∧ (PlanResult.all_success result = false →
        update_health prior now result =
          { healthy := if 3 ≤ (prior.getD freshHealth).consecutive_failures + 1 then false
                       else (prior.getD freshHealth).healthy
            last_success := (prior.getD freshHealth).last_success
            last_attempt := now
            consecutive_failures := (prior.getD freshHealth).consecutive_failures + 1
            last_error := result.results.findSome? (fun r => r.error) })
    ∧ ∀ (t1 t2 t3 t4 : Nat) (r1 r2 r3 rs : PlanResult),
        PlanResult.all_success r1 = false → PlanResult.all_success r2 = false →
        PlanResult.all_success r3 = false → PlanResult.all_success rs = true →
        (update_health none t1 r1).healthy = true
        ∧ (update_health (some (update_health none t1 r1)) t2 r2).healthy = true
        ∧ (update_health (some (update_health (some (update_health none t1 r1)) t2 r2))
            t3 r3).healthy = false
        ∧ (update_health (some (update_health (some (update_health
            (some (update_health none t1 r1)) t2 r2)) t3 r3)) t4 rs).healthy = true
        ∧ (update_health (some (update_health (some (update_health
            (some (update_health none t1 r1)) t2 r2)) t3 r3)) t4 rs).consecutive_failures
            = 0 := by
  have hfail : ∀ (pr : Option HealthStatus) (n : Nat) (res : PlanResult),
      PlanResult.all_success res = false →
      update_health pr n res =
        { healthy := if 3 ≤ (pr.getD freshHealth).consecutive_failures + 1 then false
                     else (pr.getD freshHealth).healthy
          last_success := (pr.getD freshHealth).last_success
          last_attempt := n
          consecutive_failures := (pr.getD freshHealth).consecutive_failures + 1
          last_error := res.results.findSome? (fun r => r.error) } := by
    intro pr n res hs
    rw [update_health]
    simp only [hs, Bool.false_eq_true, if_false]
  have hsucc : ∀ (pr : Option HealthStatus) (n : Nat) (res : PlanResult),
      PlanResult.all_success res = true →
      update_health pr n res =
        { healthy := true, last_success := some n, last_attempt := n,
          consecutive_failures := 0, last_error := none } := by
    intro pr n res hs
    rw [update_health]
    simp only [hs, if_true]
  refine ⟨?_, hsucc prior now result, hfail prior now result, ?_⟩
  · rw [update_health]; split <;> rfl
  · intro t1 t2 t3 t4 r1 r2 r3 rs h1 h2 h3 hs
    rw [hfail none t1 r1 h1, hfail _ t2 r2 h2, hfail _ t3 r3 h3, hsucc _ t4 rs hs]
    norm_num [freshHealth]

/-! ### Path-prefix application (claim C5) -/

/-- Claim C5 counterexample: for a remote whose path prefix is `p//`, the code
trims every trailing slash (`trim_end_matches('/')`) and produces `p/x`,
while the claim's "one trailing slash trimmed" predicts `p//x`. -/
theorem sync_path_one_slash_counterexample :
    sync_path_to_action 0 c5ctx c5sp none = some c5action
    ∧ c5action.remote_path = "p/x"
    ∧ trim_one_trailing_slash_spec "p//" ++ "/" ++ PlanContext.resolve c5ctx "x" = "p//x"
    ∧ ("p/x" : String) ≠ "p//x" :=
  ⟨rfl, rfl, rfl, by decide⟩

/-- Claim C5 (amended): for every sync-path or volume entry whose resolved
remote carries a path prefix, the action's remote path is the prefix with all
trailing slashes trimmed, then `/`, then the placeholder-substituted remote
path; with no prefix or no resolved remote the substituted path is used
unchanged. -/
theorem action_prefix_trims_trailing_slashes (fuel : Nat) (ctx : PlanContext)
    (io : Option Nat) :
    (∀ (sp : SyncPath) (a : SyncAction), sync_path_to_action fuel ctx sp io = some a →
      a.remote_path =
        match a.remote with
        | some r =>
          match ResolvedRemote.prePath r with
          | some pre => trim_end_matches_slash pre ++ "/" ++ ctx.resolve sp.remote_path
          | none => ctx.resolve sp.remote_path
        | none => ctx.resolve sp.remote_path)
    ∧ ∀ (vol : RcloneVolumeConfig) (b : SyncAction),
        volume_to_action fuel ctx vol io = some b →
        b.remote_path =
          match b.remote with
          | some r =>
            match ResolvedRemote.prePath r with
            | some pre => trim_end_matches_slash pre ++ "/" ++ ctx.resolve vol.remote_path
            | none => ctx.resolve vol.remote_path
          | none => ctx.resolve vol.remote_path := by
  constructor
  · intro sp a h
    simp only [sync_path_to_action] at h
    split at h
    · exact absurd h (by simp)
    · cases h; rfl
  · intro vol b h
    simp only [volume_to_action] at h
    split at h
    · exact absurd h (by simp)
    · cases h; rfl

/-- Claim C5 witness (amended claim): the concrete `p//`-prefixed entry gets
remote path `p/x`, the prefix with all trailing slashes trimmed. -/
theorem action_prefix_trims_trailing_slashes_witness :
    c5action.remote_path = trim_end_matches_slash "p//" ++ "/" ++ PlanContext.resolve c5ctx "x" :=
  (action_prefix_trims_trailing_slashes 0 c5ctx none).1 c5sp c5action rfl

/-! ### Sorting of the plan (claim C8) -/

theorem insertByPriority_perm (a : SyncAction) (l : List SyncAction) :
    List.Perm (insertByPriority a l) (a :: l) := by
  induction l with
  | nil => exact List.Perm.refl _
  | cons b t ih =>
    rw [insertByPriority]
    split
    · exact (ih.cons b).trans (List.Perm.swap a b t)
    · exact List.Perm.refl _

theorem insertByPriority_pairwise (a : SyncAction) (l : List SyncAction)
    (h : List.Pairwise (fun x y => x.priority ≤ y.priority) l) :
    List.Pairwise (fun x y => x.priority ≤ y.priority) (insertByPriority a l) := by
  induction l with
  | nil => simp [insertByPriority]
  | cons b t ih =>
    rw [insertByPriority]
    split
    next hlt =>
      rw [List.pairwise_cons] at h ⊢
      obtain ⟨hb, ht⟩ := h
      refine ⟨?_, ih ht⟩
      intro x hx
      rcases List.mem_cons.mp ((insertByPriority_perm a t).mem_iff.mp hx) with rfl | hx
      · omega
      · exact hb x hx
    next hge =>
      rw [List.pairwise_cons]
      refine ⟨?_, h⟩
      intro x hx
      rcases List.mem_cons.mp hx with rfl | hx
      · omega
      · have hbx := (List.pairwise_cons.mp h).1 x hx
        omega

theorem sort_by_priority_pairwise (l : List SyncAction) :
    List.Pairwise (fun x y => x.priority ≤ y.priority) (sort_by_priority l) := by
  induction l with
  | nil => simp [sort_by_priority]
  | cons a t ih => exact insertByPriority_pairwise a _ ih

theorem filter_insertByPriority (p : Nat) (a : SyncAction) (l : List SyncAction) :
    (insertByPriority a l).filter (fun x => x.priority == p)
      = ((a :: l).filter (fun x => x.priority == p)) := by
  induction l with
  | nil => rfl
  | cons b t ih =>
    rw [insertByPriority]
    split
    next hlt =>
      cases hb : (b.priority == p) <;> cases ha : (a.priority == p)
      · simp [List.filter_cons, hb, ha, ih]
      · simp [List.filter_cons, hb, ha, ih]
      · simp [List.filter_cons, hb, ha, ih]
      · exfalso
        have hb' : b.priority = p := by simpa using hb
        have ha' : a.priority = p := by simpa using ha
        omega
    next hge => rfl

theorem sort_by_priority_filter (p : Nat) (l : List SyncAction) :
    (sort_by_priority l).filter (fun x => x.priority == p)
      = l.filter (fun x => x.priority == p) := by
  induction l with
  | nil => rfl
  | cons a t ih =>
    rw [sort_by_priority, filter_insertByPriority]
    simp only [List.filter_cons, ih]

/-- Claim C8: `build_plan` sorts the collected actions stably by ascending
priority: the plan's action list is pairwise non-decreasing in priority, and
within each priority class the order is exactly the declaration order of the
unsorted list (sync-path entries first, then volume entries). -/
theorem build_plan_sorted_stable (fuel : Nat) (spec : WorkspaceSpec) (io : Option Nat)
    (acts : List SyncAction) (h : build_actions fuel spec io = some acts) :
    build_plan fuel spec io
      = some { workspace_name := spec.name, actions := sort_by_priority acts }
    ∧ List.Pairwise (fun x y => x.priority ≤ y.priority) (sort_by_priority acts)
    ∧ ∀ p : Nat, (sort_by_priority acts).filter (fun x => x.priority == p)
        = acts.filter (fun x => x.priority == p) := by
  refine ⟨?_, sort_by_priority_pairwise acts, fun p => sort_by_priority_filter p acts⟩
  rw [build_plan, h]
  rfl

/-- Claim C8 witness: the spec with priorities `[5, 1]` (sync) and `[1]`
(volume) yields the plan order `b, v, a` — priority 1 first, the tie kept in
declaration order with the sync entry before the volume. -/
theorem build_plan_sorted_stable_witness :
    build_plan 0 c8spec none
      = some { workspace_name := "w", actions := sort_by_priority c8acts }
    ∧ (sort_by_priority c8acts).map (fun a => a.name) = ["b", "v", "a"] :=
  ⟨(build_plan_sorted_stable 0 c8spec none c8acts rfl).1, by decide⟩

/-! ### Environment expansion and quoting (claim C2) -/

theorem string_mk_data (s : String) : String.mk s.data = s := rfl

theorem stripLead_first_ne (q : Char) (ps : List Char) (c : Char) (t : List Char)
    (h : (q == c) = false) : stripLead (q :: ps) (c :: t) = none := by
  simp [stripLead, h]

theorem expandBracedF_no_dollar (env : String → Option String) :
    ∀ (fuel : Nat) (s : List Char), '$' ∉ s → expandBracedF env fuel s = s := by
  intro fuel
  induction fuel with
  | zero => intro s _; rfl
  | succ n ih =>
    intro s h
    cases s with
    | nil => rfl
    | cons c t =>
      have hc : ('$' == c) = false := by
        simp only [beq_eq_false_iff_ne]
        intro hc
        exact h (hc ▸ List.mem_cons_self _ _)
      rw [expandBracedF, stripLead_first_ne _ _ _ _ hc]
      have ht : '$' ∉ t := fun hm => h (List.mem_cons_of_mem _ hm)
      rw [ih t ht]

theorem expandPlainF_no_dollar (env : String → Option String) :
    ∀ (fuel : Nat) (s : List Char), '$' ∉ s → expandPlainF env fuel s = s := by
  intro fuel
  induction fuel with
  | zero => intro s _; rfl
  | succ n ih =>
    intro s h
    cases s with
    | nil => rfl
    | cons c t =>
      have hc : ('$' == c) = false := by
        simp only [beq_eq_false_iff_ne]
        intro hc
        exact h (hc ▸ List.mem_cons_self _ _)
      rw [expandPlainF, stripLead_first_ne _ _ _ _ hc]
      have ht : '$' ∉ t := fun hm => h (List.mem_cons_of_mem _ hm)
      rw [ih t ht]

theorem expand_env_vars_no_dollar (env : String → Option String) (s : String)
    (h : '$' ∉ s.data) : expand_env_vars env s = s := by
  rw [expand_env_vars, expandBracedF_no_dollar env _ _ h, expandPlainF_no_dollar env _ _ h,
    string_mk_data]

/-- Claim C2: `quote_rclone_value` wraps its argument in single quotes exactly
when it contains a colon, comma, single quote or double quote, doubling each
embedded single quote; and for the s3 remote with bucket `b`, option
`endpoint=https://x.example.com` and path `p`, the storage backend string is
exactly `:s3,bucket=b,endpoint='https://x.example.com':p` under every process
environment. -/
theorem quote_rclone_spec_and_backend :
    (∀ v : String,
        (':' ∈ v.data ∨ ',' ∈ v.data ∨ squote ∈ v.data ∨ dquote ∈ v.data) →
          quote_rclone_value v = sqt ++ rust_replace v sqt (sqt ++ sqt) ++ sqt)
    ∧ (∀ v : String,
        ¬(':' ∈ v.data ∨ ',' ∈ v.data ∨ squote ∈ v.data ∨ dquote ∈ v.data) →
          quote_rclone_value v = v)
    ∧ ∀ env : String → Option String, build_storage_backend env c2remote "p" = c2expected := by
  refine ⟨?_, ?_, ?_⟩
  · intro v h
    have hcond : (v.data.contains ':' || v.data.contains ',' || v.data.contains squote
        || v.data.contains dquote) = true := by
      rcases h with h | h | h | h <;> simp [List.elem_eq_true_of_mem h]
      all_goals tauto
    rw [quote_rclone_value, if_pos hcond]
    rfl
  · intro v h
    have h1 : v.data.contains ':' = false := by
      rw [Bool.eq_false_iff]
      intro hc
      exact h (Or.inl (List.mem_of_elem_eq_true hc))
    have h2 : v.data.contains ',' = false := by
      rw [Bool.eq_false_iff]
      intro hc
      exact h (Or.inr (Or.inl (List.mem_of_elem_eq_true hc)))
    have h3 : v.data.contains squote = false := by
      rw [Bool.eq_false_iff]
      intro hc
      exact h (Or.inr (Or.inr (Or.inl (List.mem_of_elem_eq_true hc))))
    have h4 : v.data.contains dquote = false := by
      rw [Bool.eq_false_iff]
      intro hc
      exact h (Or.inr (Or.inr (Or.inr (List.mem_of_elem_eq_true hc))))
    have hfalse : ¬((v.data.contains ':' || v.data.contains ',' || v.data.contains squote
        || v.data.contains dquote) = true) := by
      rw [h1, h2, h3, h4]
      exact Bool.false_ne_true
    rw [quote_rclone_value, if_neg hfalse]
  · intro env
    have hb := expand_env_vars_no_dollar env "b" (by decide)
    have he := expand_env_vars_no_dollar env "https://x.example.com" (by decide)
    simp only [build_storage_backend, c2remote, ResolvedRemote.bucket, ResolvedRemote.options,
      ResolvedRemote.remote_type, List.map_cons, List.map_nil, hb, he]
    decide

/-- Claim C2 witness: a value containing a colon is quoted (with doubling of
any embedded single quotes), a plain value is left alone, and the scenario's
backend string comes out exactly as predicted under the empty environment. -/
theorem quote_rclone_spec_and_backend_witness :
    quote_rclone_value "https://x.example.com"
      = sqt ++ rust_replace "https://x.example.com" sqt (sqt ++ sqt) ++ sqt
    ∧ quote_rclone_value "Cloudflare" = "Cloudflare"
    ∧ build_storage_backend (fun _ => none) c2remote "p" = c2expected :=
  ⟨quote_rclone_spec_and_backend.1 "https://x.example.com" (by decide),
   quote_rclone_spec_and_backend.2.1 "Cloudflare" (by decide),
   quote_rclone_spec_and_backend.2.2 (fun _ => none)⟩

/-! ### Placeholder substitution (claim C6) -/

theorem stripLead_some_length :
    ∀ (p s rest : List Char), stripLead p s = some rest → rest.length + p.length = s.length := by
  intro p
  induction p with
  | nil =>
    intro s rest h
    cases h
    simp
  | cons a ps ih =>
    intro s rest h
    cases s with
    | nil => cases h
    | cons b t =>
      rw [stripLead] at h
      split at h
      · have := ih t rest h
        simp only [List.length_cons]
        omega
      · simp at h

theorem stripLead_some_append :
    ∀ (p s rest : List Char), stripLead p s = some rest → s = p ++ rest := by
  intro p
  induction p with
  | nil =>
    intro s rest h
    cases h
    rfl
  | cons a ps ih =>
    intro s rest h
    cases s with
    | nil => cases h
    | cons b t =>
      rw [stripLead] at h
      split at h
      next hab =>
        have hb : a = b := eq_of_beq hab
        rw [List.cons_append, ← hb, ← ih t rest h]
      next => simp at h

theorem replaceAllF_nil (p r : List Char) (f : Nat) : replaceAllF p r f [] = [] := by
  cases f with
  | zero => rfl
  | succ n => cases p <;> rfl

theorem replaceAllF_mono (p r : List Char) :
    ∀ (f1 f2 : Nat) (s : List Char), s.length ≤ f1 → s.length ≤ f2 →
      replaceAllF p r f1 s = replaceAllF p r f2 s := by
  intro f1
  induction f1 with
  | zero =>
    intro f2 s h1 _
    have hs : s = [] := List.eq_nil_of_length_eq_zero (Nat.le_zero.mp h1)
    subst hs
    rw [replaceAllF_nil, replaceAllF_nil]
  | succ n ih =>
    intro f2 s h1 h2
    cases s with
    | nil => rw [replaceAllF_nil, replaceAllF_nil]
    | cons c t =>
      cases f2 with
      | zero => simp at h2
      | succ m =>
        cases p with
        | nil => rfl
        | cons q ps =>
          cases hs : stripLead (q :: ps) (c :: t) with
          | none =>
            simp only [replaceAllF, hs]
            simp only [List.length_cons] at h1 h2
            rw [ih m t (by omega) (by omega)]
          | some rest =>
            have hlen := stripLead_some_length _ _ _ hs
            simp only [replaceAllF, hs]
            simp only [List.length_cons] at h1 h2
            simp only [List.length_cons] at hlen
            rw [ih m rest (by omega) (by omega)]

theorem replaceAll_strip_some (q : Char) (ps r s rest : List Char)
    (h : stripLead (q :: ps) s = some rest) :
    replaceAll (q :: ps) r s = r ++ replaceAll (q :: ps) r rest := by
  cases s with
  | nil => cases h
  | cons c t =>
    have hlen := stripLead_some_length _ _ _ h
    show replaceAllF (q :: ps) r (t.length + 1) (c :: t) = _
    simp only [replaceAllF, h]
    refine congrArg (r ++ ·) (replaceAllF_mono _ _ _ _ _ ?_ (le_refl _))
    simp only [List.length_cons] at hlen
    omega

theorem replaceAll_cons_none (q : Char) (ps r : List Char) (c : Char) (t : List Char)
    (h : stripLead (q :: ps) (c :: t) = none) :
    replaceAll (q :: ps) r (c :: t) = c :: replaceAll (q :: ps) r t := by
  show replaceAllF (q :: ps) r (t.length + 1) (c :: t) = _
  simp only [replaceAllF, h]
  rfl

theorem replaceAll_nobrace_append (ps r : List Char) :
    ∀ (s t : List Char), noLBrace s →
      replaceAll ('{' :: ps) r (s ++ t) = s ++ replaceAll ('{' :: ps) r t := by
  intro s
  induction s with
  | nil => intro t _; rfl
  | cons c s' ih =>
    intro t h
    have hc : ('{' == c) = false := by
      rw [beq_eq_false_iff_ne]
      intro hh
      exact h (hh ▸ List.mem_cons_self _ _)
    rw [List.cons_append, replaceAll_cons_none _ _ _ _ _ (stripLead_first_ne _ _ _ _ hc),
      ih t (fun hm => h (List.mem_cons_of_mem _ hm))]
    rfl

theorem replaceAll_no_occur (q : Char) (ps r : List Char) :
    ∀ s, occursPat (q :: ps) s = false → replaceAll (q :: ps) r s = s := by
  intro s
  induction s with
  | nil => intro _; rfl
  | cons c t ih =>
    intro h
    rw [occursPat, Bool.or_eq_false_iff] at h
    obtain ⟨h1, h2⟩ := h
    have hnone : stripLead (q :: ps) (c :: t) = none :=
      Option.not_isSome_iff_eq_none.mp (by simp [h1])
    rw [replaceAll_cons_none _ _ _ _ _ hnone, ih h2]

theorem substStep_cons_char (ctx : PlanContext) (k : PH) (c : Char) (t : List Char)
    (hc : c ≠ '{') : substStep ctx k (c :: t) = c :: substStep ctx k t := by
  have hb : ('{' == c) = false := by
    rw [beq_eq_false_iff_ne]
    exact fun hh => hc hh.symm
  cases k <;> exact replaceAll_cons_none _ _ _ _ _ (stripLead_first_ne _ _ _ _ hb)

theorem substStep_nobrace_append (ctx : PlanContext) (k : PH) (s t : List Char)
    (h : noLBrace s) : substStep ctx k (s ++ t) = s ++ substStep ctx k t := by
  cases k <;> exact replaceAll_nobrace_append _ _ s t h

theorem substSeq_nil (ctx : PlanContext) : ∀ ks : List PH, substSeq ctx ks [] = [] := by
  intro ks
  induction ks with
  | nil => rfl
  | cons k ks ih => cases k <;> exact ih

theorem substSeq_nobrace_append (ctx : PlanContext) (s : List Char) (h : noLBrace s) :
    ∀ (ks : List PH) (t : List Char), substSeq ctx ks (s ++ t) = s ++ substSeq ctx ks t := by
  intro ks
  induction ks with
  | nil => intro t; rfl
  | cons k ks ih =>
    intro t
    show substSeq ctx ks (substStep ctx k (s ++ t)) = _
    rw [substStep_nobrace_append ctx k s t h, ih (substStep ctx k t)]
    rfl

theorem substSeq_cons_char (ctx : PlanContext) (c : Char) (hc : c ≠ '{') :
    ∀ (ks : List PH) (t : List Char), substSeq ctx ks (c :: t) = c :: substSeq ctx ks t := by
  intro ks
  induction ks with
  | nil => intro t; rfl
  | cons k ks ih =>
    intro t
    show substSeq ctx ks (substStep ctx k (c :: t)) = _
    rw [substStep_cons_char ctx k c t hc, ih (substStep ctx k t)]
    rfl

theorem substStep_org_self (ctx : PlanContext) (X : List Char) :
    substStep ctx PH.org (orgPat ++ X) = ctx.org.data ++ substStep ctx PH.org X :=
  replaceAll_strip_some _ _ _ _ _ (by rfl)

theorem substStep_proj_self (ctx : PlanContext) (X : List Char) :
    substStep ctx PH.proj (projPat ++ X) = ctx.project.data ++ substStep ctx PH.proj X :=
  replaceAll_strip_some _ _ _ _ _ (by rfl)

theorem substStep_env_self (ctx : PlanContext) (X : List Char) :
    substStep ctx PH.env (envPat ++ X) = ctx.env.data ++ substStep ctx PH.env X :=
  replaceAll_strip_some _ _ _ _ _ (by rfl)

theorem substStep_proj_orgPat (ctx : PlanContext) (X : List Char) :
    substStep ctx PH.proj (orgPat ++ X) = orgPat ++ substStep ctx PH.proj X := by
  show replaceAll ('{' :: ['p', 'r', 'o', 'j', 'e', 'c', 't', '}']) ctx.project.data
      ('{' :: (['o', 'r', 'g', '}'] ++ X)) = _
  rw [replaceAll_cons_none _ _ _ _ _ (by rfl),
    replaceAll_nobrace_append _ _ _ _ (by decide)]
  rfl

theorem substStep_env_orgPat (ctx : PlanContext) (X : List Char) :
    substStep ctx PH.env (orgPat ++ X) = orgPat ++ substStep ctx PH.env X := by
  show replaceAll ('{' :: ['e', 'n', 'v', '}']) ctx.env.data
      ('{' :: (['o', 'r', 'g', '}'] ++ X)) = _
  rw [replaceAll_cons_none _ _ _ _ _ (by rfl),
    replaceAll_nobrace_append _ _ _ _ (by decide)]
  rfl

theorem substStep_org_projPat (ctx : PlanContext) (X : List Char) :
    substStep ctx PH.org (projPat ++ X) = projPat ++ substStep ctx PH.org X := by
  show replaceAll ('{' :: ['o', 'r', 'g', '}']) ctx.org.data
      ('{' :: (['p', 'r', 'o', 'j', 'e', 'c', 't', '}'] ++ X)) = _
  rw [replaceAll_cons_none _ _ _ _ _ (by rfl),
    replaceAll_nobrace_append _ _ _ _ (by decide)]
  rfl

theorem substStep_env_projPat (ctx : PlanContext) (X : List Char) :
    substStep ctx PH.env (projPat ++ X) = projPat ++ substStep ctx PH.env X := by
  show replaceAll ('{' :: ['e', 'n', 'v', '}']) ctx.env.data
      ('{' :: (['p', 'r', 'o', 'j', 'e', 'c', 't', '}'] ++ X)) = _
  rw [replaceAll_cons_none _ _ _ _ _ (by rfl),
    replaceAll_nobrace_append _ _ _ _ (by decide)]
  rfl

theorem substStep_org_envPat (ctx : PlanContext) (X : List Char) :
    substStep ctx PH.org (envPat ++ X) = envPat ++ substStep ctx PH.org X := by
  show replaceAll ('{' :: ['o', 'r', 'g', '}']) ctx.org.data
      ('{' :: (['e', 'n', 'v', '}'] ++ X)) = _
  rw [replaceAll_cons_none _ _ _ _ _ (by rfl),
    replaceAll_nobrace_append _ _ _ _ (by decide)]
  rfl

theorem substStep_proj_envPat (ctx : PlanContext) (X : List Char) :
    substStep ctx PH.proj (envPat ++ X) = envPat ++ substStep ctx PH.proj X := by
  show replaceAll ('{' :: ['p', 'r', 'o', 'j', 'e', 'c', 't', '}']) ctx.project.data
      ('{' :: (['e', 'n', 'v', '}'] ++ X)) = _
  rw [replaceAll_cons_none _ _ _ _ _ (by rfl),
    replaceAll_nobrace_append _ _ _ _ (by decide)]
  rfl

theorem substSeq_orgPat (ctx : PlanContext) (hO : noLBrace ctx.org.data) :
    ∀ (ks : List PH), PH.org ∈ ks → ∀ X : List Char,
      substSeq ctx ks (orgPat ++ X) = ctx.org.data ++ substSeq ctx ks X := by
  intro ks
  induction ks with
  | nil => intro h; cases h
  | cons k ks ih =>
    intro hmem X
    cases k with
    | org =>
      show substSeq ctx ks (substStep ctx PH.org (orgPat ++ X)) = _
      rw [substStep_org_self, substSeq_nobrace_append ctx _ hO ks _]
      rfl
    | proj =>
      have hm : PH.org ∈ ks := (List.mem_cons.mp hmem).resolve_left (by decide)
      show substSeq ctx ks (substStep ctx PH.proj (orgPat ++ X)) = _
      rw [substStep_proj_orgPat, ih hm (substStep ctx PH.proj X)]
      rfl
    | env =>
      have hm : PH.org ∈ ks := (List.mem_cons.mp hmem).resolve_left (by decide)
      show substSeq ctx ks (substStep ctx PH.env (orgPat ++ X)) = _
      rw [substStep_env_orgPat, ih hm (substStep ctx PH.env X)]
      rfl

theorem substSeq_projPat (ctx : PlanContext) (hP : noLBrace ctx.project.data) :
    ∀ (ks : List PH), PH.proj ∈ ks → ∀ X : List Char,
      substSeq ctx ks (projPat ++ X) = ctx.project.data ++ substSeq ctx ks X := by
  intro ks
  induction ks with
  | nil => intro h; cases h
  | cons k ks ih =>
    intro hmem X
    cases k with
    | proj =>
      show substSeq ctx ks (substStep ctx PH.proj (projPat ++ X)) = _
      rw [substStep_proj_self, substSeq_nobrace_append ctx _ hP ks _]
      rfl
    | org =>
      have hm : PH.proj ∈ ks := (List.mem_cons.mp hmem).resolve_left (by decide)
      show substSeq ctx ks (substStep ctx PH.org (projPat ++ X)) = _
      rw [substStep_org_projPat, ih hm (substStep ctx PH.org X)]
      rfl
    | env =>
      have hm : PH.proj ∈ ks := (List.mem_cons.mp hmem).resolve_left (by decide)
      show substSeq ctx ks (substStep ctx PH.env (projPat ++ X)) = _
      rw [substStep_env_projPat, ih hm (substStep ctx PH.env X)]
      rfl

theorem substSeq_envPat (ctx : PlanContext) (hE : noLBrace ctx.env.data) :
    ∀ (ks : List PH), PH.env ∈ ks → ∀ X : List Char,
      substSeq ctx ks (envPat ++ X) = ctx.env.data ++ substSeq ctx ks X := by
  intro ks
  induction ks with
  | nil => intro h; cases h
  | cons k ks ih =>
    intro hmem X
    cases k with
    | env =>
      show substSeq ctx ks (substStep ctx PH.env (envPat ++ X)) = _
      rw [substStep_env_self, substSeq_nobrace_append ctx _ hE ks _]
      rfl
    | org =>
      have hm : PH.env ∈ ks := (List.mem_cons.mp hmem).resolve_left (by decide)
      show substSeq ctx ks (substStep ctx PH.org (envPat ++ X)) = _
      rw [substStep_org_envPat, ih hm (substStep ctx PH.org X)]
      rfl
    | proj =>
      have hm : PH.env ∈ ks := (List.mem_cons.mp hmem).resolve_left (by decide)
      show substSeq ctx ks (substStep ctx PH.proj (envPat ++ X)) = _
      rw [substStep_proj_envPat, ih hm (substStep ctx PH.proj X)]
      rfl

theorem substParF_nil (o p e : List Char) (f : Nat) : substParF o p e f [] = [] := by
  cases f <;> rfl

theorem substParF_mono (o p e : List Char) :
    ∀ (f1 f2 : Nat) (s : List Char), s.length ≤ f1 → s.length ≤ f2 →
      substParF o p e f1 s = substParF o p e f2 s := by
  intro f1
  induction f1 with
  | zero =>
    intro f2 s h1 _
    have hs : s = [] := List.eq_nil_of_length_eq_zero (Nat.le_zero.mp h1)
    subst hs
    rw [substParF_nil, substParF_nil]
  | succ n ih =>
    intro f2 s h1 h2
    cases s with
    | nil => rw [substParF_nil, substParF_nil]
    | cons c t =>
      cases f2 with
      | zero => simp at h2
      | succ m =>
        simp only [List.length_cons] at h1 h2
        cases hs1 : stripLead orgPat (c :: t) with
        | some rest =>
          have hlen := stripLead_some_length _ _ _ hs1
          simp only [orgPat, List.length_cons, List.length_nil] at hlen
          simp only [substParF, hs1]
          rw [ih m rest (by omega) (by omega)]
        | none =>
          cases hs2 : stripLead projPat (c :: t) with
          | some rest =>
            have hlen := stripLead_some_length _ _ _ hs2
            simp only [projPat, List.length_cons, List.length_nil] at hlen
            simp only [substParF, hs1, hs2]
            rw [ih m rest (by omega) (by omega)]
          | none =>
            cases hs3 : stripLead envPat (c :: t) with
            | some rest =>
              have hlen := stripLead_some_length _ _ _ hs3
              simp only [envPat, List.length_cons, List.length_nil] at hlen
              simp only [substParF, hs1, hs2, hs3]
              rw [ih m rest (by omega) (by omega)]
            | none =>
              simp only [substParF, hs1, hs2, hs3]
              rw [ih m t (by omega) (by omega)]

theorem substParL_org (o p e X : List Char) :
    substParL o p e (orgPat ++ X) = o ++ substParL o p e X := by
  show o ++ substParF o p e (X.length + 4) X = o ++ substParF o p e X.length X
  exact congrArg (o ++ ·) (substParF_mono o p e _ _ X (by omega) (le_refl _))

theorem substParL_proj (o p e X : List Char) :
    substParL o p e (projPat ++ X) = p ++ substParL o p e X := by
  show p ++ substParF o p e (X.length + 8) X = p ++ substParF o p e X.length X
  exact congrArg (p ++ ·) (substParF_mono o p e _ _ X (by omega) (le_refl _))

theorem substParL_env (o p e X : List Char) :
    substParL o p e (envPat ++ X) = e ++ substParL o p e X := by
  show e ++ substParF o p e (X.length + 4) X = e ++ substParF o p e X.length X
  exact congrArg (e ++ ·) (substParF_mono o p e _ _ X (by omega) (le_refl _))

theorem substParL_cons (o p e : List Char) (c : Char) (t : List Char)
    (h1 : stripLead orgPat (c :: t) = none) (h2 : stripLead projPat (c :: t) = none)
    (h3 : stripLead envPat (c :: t) = none) :
    substParL o p e (c :: t) = c :: substParL o p e t := by
  show substParF o p e (t.length + 1) (c :: t) = _
  simp only [substParF, h1, h2, h3]
  rfl

theorem substSeq_eq_substParL (ctx : PlanContext) (hO : noLBrace ctx.org.data)
    (hP : noLBrace ctx.project.data) (hE : noLBrace ctx.env.data) :
    ∀ (n : Nat) (t : List Char), t.length ≤ n → goodTemplate t →
      ∀ ks : List PH, PH.org ∈ ks → PH.proj ∈ ks → PH.env ∈ ks →
        substSeq ctx ks t = substParL ctx.org.data ctx.project.data ctx.env.data t := by
  intro n
  induction n with
  | zero =>
    intro t ht _ ks _ _ _
    have hs : t = [] := List.eq_nil_of_length_eq_zero (Nat.le_zero.mp ht)
    subst hs
    rw [substSeq_nil]
    rfl
  | succ n ih =>
    intro t ht hg ks hko hkp hke
    cases t with
    | nil => rw [substSeq_nil]; rfl
    | cons c t' =>
      simp only [List.length_cons] at ht
      cases hs1 : stripLead orgPat (c :: t') with
      | some rest =>
        have heq := stripLead_some_append _ _ _ hs1
        have hlen := stripLead_some_length _ _ _ hs1
        simp only [orgPat, List.length_cons, List.length_nil] at hlen
        rw [heq] at hg ⊢
        rw [substSeq_orgPat ctx hO ks hko rest, substParL_org]
        have hg' : goodTemplate rest := by
          simp only [goodTemplate, substParL_org] at hg
          simpa using hg
        rw [ih rest (by omega) hg' ks hko hkp hke]
      | none =>
        cases hs2 : stripLead projPat (c :: t') with
        | some rest =>
          have heq := stripLead_some_append _ _ _ hs2
          have hlen := stripLead_some_length _ _ _ hs2
          simp only [projPat, List.length_cons, List.length_nil] at hlen
          rw [heq] at hg ⊢
          rw [substSeq_projPat ctx hP ks hkp rest, substParL_proj]
          have hg' : goodTemplate rest := by
            simp only [goodTemplate, substParL_proj] at hg
            simpa using hg
          rw [ih rest (by omega) hg' ks hko hkp hke]
        | none =>
          cases hs3 : stripLead envPat (c :: t') with
          | some rest =>
            have heq := stripLead_some_append _ _ _ hs3
            have hlen := stripLead_some_length _ _ _ hs3
            simp only [envPat, List.length_cons, List.length_nil] at hlen
            rw [heq] at hg ⊢
            rw [substSeq_envPat ctx hE ks hke rest, substParL_env]
            have hg' : goodTemplate rest := by
              simp only [goodTemplate, substParL_env] at hg
              simpa using hg
            rw [ih rest (by omega) hg' ks hko hkp hke]
          | none =>
            by_cases hc : c = '{'
            · exfalso
              subst hc
              simp only [goodTemplate, substParL_cons _ _ _ _ _ hs1 hs2 hs3] at hg
              exact hg (List.mem_cons_self _ _)
            · rw [substSeq_cons_char ctx c hc ks t',
                substParL_cons _ _ _ _ _ hs1 hs2 hs3]
              have hg' : goodTemplate t' := by
                simp only [goodTemplate, substParL_cons _ _ _ _ _ hs1 hs2 hs3] at hg
                exact fun hm => hg (List.mem_cons_of_mem _ hm)
              rw [ih t' (by omega) hg' ks hko hkp hke]

theorem substParL_noLBrace (o p e : List Char) (ho : noLBrace o) (hp : noLBrace p)
    (he : noLBrace e) :
    ∀ (n : Nat) (t : List Char), t.length ≤ n → goodTemplate t →
      noLBrace (substParL o p e t) := by
  intro n
  induction n with
  | zero =>
    intro t ht _
    have hs : t = [] := List.eq_nil_of_length_eq_zero (Nat.le_zero.mp ht)
    subst hs
    intro hm
    cases hm
  | succ n ih =>
    intro t ht hg
    cases t with
    | nil => intro hm; cases hm
    | cons c t' =>
      simp only [List.length_cons] at ht
      cases hs1 : stripLead orgPat (c :: t') with
      | some rest =>
        have heq := stripLead_some_append _ _ _ hs1
        have hlen := stripLead_some_length _ _ _ hs1
        simp only [orgPat, List.length_cons, List.length_nil] at hlen
        rw [heq] at hg ⊢
        rw [substParL_org]
        have hg' : goodTemplate rest := by
          simp only [goodTemplate, substParL_org] at hg
          simpa using hg
        intro hm
        rcases List.mem_append.mp hm with hm | hm
        · exact ho hm
        · exact ih rest (by omega) hg' hm
      | none =>
        cases hs2 : stripLead projPat (c :: t') with
        | some rest =>
          have heq := stripLead_some_append _ _ _ hs2
          have hlen := stripLead_some_length _ _ _ hs2
          simp only [projPat, List.length_cons, List.length_nil] at hlen
          rw [heq] at hg ⊢
          rw [substParL_proj]
          have hg' : goodTemplate rest := by
            simp only [goodTemplate, substParL_proj] at hg
            simpa using hg
          intro hm
          rcases List.mem_append.mp hm with hm | hm
          · exact hp hm
          · exact ih rest (by omega) hg' hm
        | none =>
          cases hs3 : stripLead envPat (c :: t') with
          | some rest =>
            have heq := stripLead_some_append _ _ _ hs3
            have hlen := stripLead_some_length _ _ _ hs3
            simp only [envPat, List.length_cons, List.length_nil] at hlen
            rw [heq] at hg ⊢
            rw [substParL_env]
            have hg' : goodTemplate rest := by
              simp only [goodTemplate, substParL_env] at hg
              simpa using hg
            intro hm
            rcases List.mem_append.mp hm with hm | hm
            · exact he hm
            · exact ih rest (by omega) hg' hm
          | none =>
            by_cases hc : c = '{'
            · exfalso
              subst hc
              simp only [goodTemplate, substParL_cons _ _ _ _ _ hs1 hs2 hs3] at hg
              exact hg (List.mem_cons_self _ _)
            · rw [substParL_cons _ _ _ _ _ hs1 hs2 hs3]
              have hg' : goodTemplate t' := by
                simp only [goodTemplate, substParL_cons _ _ _ _ _ hs1 hs2 hs3] at hg
                exact fun hm => hg (List.mem_cons_of_mem _ hm)
              intro hm
              rcases List.mem_cons.mp hm with hm | hm
              · exact hc hm.symm
              · exact ih t' (by omega) hg' hm

theorem occursPat_of_noLBrace (ps : List Char) :
    ∀ s, noLBrace s → occursPat ('{' :: ps) s = false := by
  intro s
  induction s with
  | nil => intro _; rfl
  | cons c t ih =>
    intro h
    have hb : ('{' == c) = false := by
      rw [beq_eq_false_iff_ne]
      exact fun hh => h (hh ▸ List.mem_cons_self _ _)
    rw [occursPat, stripLead_first_ne _ _ _ _ hb,
      ih (fun hm => h (List.mem_cons_of_mem _ hm))]
    rfl

theorem resolve_eq_substSeq (ctx : PlanContext) (t : String) :
    PlanContext.resolve ctx t = String.mk (substSeq ctx [PH.org, PH.proj, PH.env] t.data) :=
  rfl

theorem resolve_no_occur (ctx : PlanContext) (s : String)
    (h1 : occursPat orgPat s.data = false) (h2 : occursPat projPat s.data = false)
    (h3 : occursPat envPat s.data = false) : PlanContext.resolve ctx s = s := by
  have e1 : rust_replace s "{org}" ctx.org = s := by
    show String.mk (replaceAll ('{' :: ['o', 'r', 'g', '}']) ctx.org.data s.data) = s
    rw [replaceAll_no_occur _ _ _ _ h1, string_mk_data]
  have e2 : rust_replace s "{project}" ctx.project = s := by
    show String.mk (replaceAll ('{' :: ['p', 'r', 'o', 'j', 'e', 'c', 't', '}'])
        ctx.project.data s.data) = s
    rw [replaceAll_no_occur _ _ _ _ h2, string_mk_data]
  have e3 : rust_replace s "{env}" ctx.env = s := by
    show String.mk (replaceAll ('{' :: ['e', 'n', 'v', '}']) ctx.env.data s.data) = s
    rw [replaceAll_no_occur _ _ _ _ h3, string_mk_data]
  show rust_replace (rust_replace (rust_replace s "{org}" ctx.org) "{project}" ctx.project)
      "{env}" ctx.env = s
  rw [e1, e2, e3]

theorem resolve_id_of_noLBrace (ctx : PlanContext) (s : String) (h : noLBrace s.data) :
    PlanContext.resolve ctx s = s :=
  resolve_no_occur ctx s (occursPat_of_noLBrace ['o', 'r', 'g', '}'] s.data h)
    (occursPat_of_noLBrace ['p', 'r', 'o', 'j', 'e', 'c', 't', '}'] s.data h)
    (occursPat_of_noLBrace ['e', 'n', 'v', '}'] s.data h)

/-- Claim C6 counterexample: with a context whose org value is itself the
string `{env}`, the three single-placeholder replacement passes give different
final strings in different orders; and with an env value containing `{org}`,
applying the substitution twice differs from applying it once. -/
theorem resolve_substitution_counterexample :
    substSeq c6ctxA [PH.org, PH.proj, PH.env] "{org}".data = "E".data
    ∧ substSeq c6ctxA [PH.env, PH.proj, PH.org] "{org}".data = "{env}".data
    ∧ "E".data ≠ "{env}".data
    ∧ PlanContext.resolve c6ctxB "{env}" = "{org}"
    ∧ PlanContext.resolve c6ctxB (PlanContext.resolve c6ctxB "{env}") = "A"
    ∧ ("A" : String) ≠ "{org}" :=
  ⟨rfl, rfl, by decide, rfl, rfl, by decide⟩

/-- Claim C6 (amended): a template containing no occurrence of `{org}`,
`{project}` or `{env}` is returned unchanged by `PlanContext.resolve`; and
provided every left brace in the template begins one of the three
placeholders and the substituted org/project/env values contain no left
brace, the substitution is order-independent (every pass sequence containing
all three placeholders gives the code's fixed-order result) and idempotent. -/
theorem resolve_substitution_amended (ctx : PlanContext) (t : String) :
    (occursPat orgPat t.data = false → occursPat projPat t.data = false →
      occursPat envPat t.data = false → PlanContext.resolve ctx t = t)
    ∧ (goodTemplate t.data → noLBrace ctx.org.data → noLBrace ctx.project.data →
        noLBrace ctx.env.data →
        (∀ ks : List PH, PH.org ∈ ks → PH.proj ∈ ks → PH.env ∈ ks →
          substSeq ctx ks t.data = substSeq ctx [PH.org, PH.proj, PH.env] t.data)
        ∧ PlanContext.resolve ctx (PlanContext.resolve ctx t) = PlanContext.resolve ctx t) := by
  refine ⟨resolve_no_occur ctx t, ?_⟩
  intro hg hO hP hE
  constructor
  · intro ks h1 h2 h3
    rw [substSeq_eq_substParL ctx hO hP hE t.data.length t.data (le_refl _) hg ks h1 h2 h3,
      substSeq_eq_substParL ctx hO hP hE t.data.length t.data (le_refl _) hg
        [PH.org, PH.proj, PH.env] (by decide) (by decide) (by decide)]
  · have hres : (PlanContext.resolve ctx t).data
        = substParL ctx.org.data ctx.project.data ctx.env.data t.data := by
      rw [resolve_eq_substSeq]
      show substSeq ctx [PH.org, PH.proj, PH.env] t.data = _
      exact substSeq_eq_substParL ctx hO hP hE t.data.length t.data (le_refl _) hg
        [PH.org, PH.proj, PH.env] (by decide) (by decide) (by decide)
    have hnb : noLBrace (PlanContext.resolve ctx t).data := by
      rw [hres]
      exact substParL_noLBrace _ _ _ hO hP hE t.data.length t.data (le_refl _) hg
    exact resolve_id_of_noLBrace ctx _ hnb

/-- Claim C6 witness (amended claim): for a placeholder-free context and the
well-formed template `ws/\x7borg\x7d/\x7benv\x7d`, a reordered pass sequence
agrees with the code's fixed order and resolution is idempotent. -/
theorem resolve_substitution_amended_witness :
    substSeq c6wctx [PH.env, PH.org, PH.proj] "ws/{org}/{env}".data
      = substSeq c6wctx [PH.org, PH.proj, PH.env] "ws/{org}/{env}".data
    ∧ PlanContext.resolve c6wctx (PlanContext.resolve c6wctx "ws/{org}/{env}")
      = PlanContext.resolve c6wctx "ws/{org}/{env}" := by
  have h := (resolve_substitution_amended c6wctx "ws/{org}/{env}").2
    (by decide) (by decide) (by decide) (by decide)
  exact ⟨h.1 [PH.env, PH.org, PH.proj] (by decide) (by decide) (by decide), h.2⟩

/-- Claim C4 witness: concrete failing and succeeding pass results exercise
both branches of the health transition. -/
theorem update_health_spec_witness :
    update_health none 5 c4fail =
      { healthy := true, last_success := none, last_attempt := 5,
        consecutive_failures := 1, last_error := some "E" }
    ∧ update_health none 7 c4ok =
      { healthy := true, last_success := some 7, last_attempt := 7,
        consecutive_failures := 0, last_error := none } := by
  have h1 := (update_health_spec none 5 c4fail).2.2.1 rfl
  have h2 := (update_health_spec none 7 c4ok).2.1 rfl
  refine ⟨?_, h2⟩
  rw [h1]
  norm_num [freshHealth, c4fail]
